import Mathlib

/-!
Verification of the Google-Trend-KT fetch pipeline.

The development shallowly embeds the algorithmic core of the repository:

* `google_trends.py` — cache keying (`get_cache_key`), the TTL file cache
  (`get_cached_data` / `save_to_cache`), and the per-batch retry loop of
  `fetch_batch`;
* `app.py` — the batching, per-batch dispatch, and table merge of
  `process_all_keywords`.

Time-indexed pandas DataFrames are modelled by `DF`: an explicit row index of
time points (integers) and a list of labelled columns, each column a list of
optional integer cells aligned positionally with the index (`none` models a
missing value / NaN). The external pytrends capability is modelled by an
oracle mapping the attempt number to an outcome, and wall-clock time by a
natural-number timestamp in seconds.
-/

/-- Model of a pandas DataFrame as used by the repository: a row index of
time points and labelled columns whose cell lists align positionally with the
index. A `none` cell is an explicit missing value (NaN), distinct from `some 0`. -/
structure DF where
  index : List Int
  cols : List (String × List (Option Int))
deriving DecidableEq

/-- Column labels of a table, in order (pandas `df.columns`). -/
def DF.colNames (df : DF) : List String :=
  df.cols.map Prod.fst

/-- Model of pandas `df.empty`: true when either axis has length zero. -/
def DF.isEmpty (df : DF) : Bool :=
  df.index.isEmpty || df.cols.isEmpty

/-- Positional lookup of the cell at time point `d`: walk the index and the
column's cell list together. Returns `none` when `d` is not in the index. -/
def lookupVal : List Int → List (Option Int) → Int → Option Int
  | i :: is, v :: vs, d => if d = i then v else lookupVal is vs d
  | _, _, _ => none

/-- Cell access `df.loc[d, name]`: find the first column labelled `name` and
look up the time point `d` in it. -/
def DF.cell (df : DF) (name : String) (d : Int) : Option Int :=
  match df.cols.find? (fun c => c.1 == name) with
  | some c => lookupVal df.index c.2 d
  | none => none

/-! ## Cache (google_trends.py lines 22, 24-44)

The pickle-file cache is modelled as an association list from cache key to
the write timestamp (the file's mtime) and the stored table. Writing a file
replaces any previous file of the same name; reading never modifies the
store, so an expired entry is only ignored, never purged. -/

/-- CACHE_DURATION of google_trends.py line 22 (`timedelta(days=1)`), in seconds. -/
def CACHE_DURATION : Nat := 86400

/-- MAX_RETRIES of google_trends.py line 16. -/
def MAX_RETRIES : Nat := 3

/-- The cache directory: one entry per key, with the mtime of the write. -/
abbrev Cache := List (String × Nat × DF)

/-- Embedding of `get_cache_key` (google_trends.py lines 24-27): the query
string `'-'.join(sorted(keywords)) + '-' + timeframe + '-' + geo`. The Python
function returns the MD5 hex digest of this string; MD5 is a deterministic
function of the string, so two calls yield the same key exactly when they
build equal query strings, and the model returns the query string itself. -/
def get_cache_key (keywords : List String) (timeframe geo : String) : String :=
  String.intercalate "-" (List.insertionSort (fun a b => a ≤ b) keywords)
    ++ "-" ++ timeframe ++ "-" ++ geo

/-- Embedding of `get_cached_data` (google_trends.py lines 29-37): if a cache
file for `key` exists and `now - mtime < CACHE_DURATION`, return its payload,
otherwise return `none`. The function is read-only: an expired entry stays in
the store. -/
def get_cached_data (cache : Cache) (key : String) (now : Nat) : Option DF :=
  match cache.find? (fun e => e.1 == key) with
  | some e => if now - e.2.1 < CACHE_DURATION then some e.2.2 else none
  | none => none

/-- Embedding of `save_to_cache` (google_trends.py lines 39-44): write the
table under `key` with mtime `now`, overwriting any previous file of that
name. -/
def save_to_cache (cache : Cache) (key : String) (now : Nat) (data : DF) : Cache :=
  (key, now, data) :: cache.filter (fun e => e.1 != key)

/-! ## Per-batch fetch with retry (google_trends.py lines 46-86)

The underlying pytrends call (`build_payload` + `interest_over_time`) is
modelled by an oracle from the attempt number to an outcome: either a table
or a raised exception. The `terminal` flag on an error records the spec's
classification of the error (malformed request vs. transient failure); the
Python code's `except Exception` clause is oblivious to it. -/

/-- Outcome of one underlying pytrends invocation: a returned table or a
raised exception. `terminal` marks a malformed-request error as opposed to a
transient transport/timeout error; the code does not inspect this. -/
inductive FetchOutcome where
  | ok (data : DF)
  | err (terminal : Bool)
deriving DecidableEq

/-- The retry loop of `fetch_batch` (google_trends.py lines 63-86):
`for attempt in range(MAX_RETRIES)`. A non-empty table returns immediately;
an empty (or missing) table falls through to the next attempt; any exception
is caught and the loop continues to the next attempt. After the loop, `None`.
`fuel` is the number of loop iterations left and `attempt` the current
attempt index; the result is paired with the total number of attempts made. -/
def fetch_attempts (oracle : Nat → FetchOutcome) : Nat → Nat → Option DF × Nat
  | 0, attempt => (none, attempt)
  | fuel + 1, attempt =>
    match oracle attempt with
    | .ok data =>
        if data.isEmpty then fetch_attempts oracle fuel (attempt + 1)
        else (some data, attempt + 1)
    | .err _ => fetch_attempts oracle fuel (attempt + 1)

/-- Embedding of `fetch_batch` (google_trends.py lines 46-86): consult the
cache under the key for the fixed window (`'today 5-y'`, `'DE'`); on a hit
return the cached table with zero network attempts; on a miss run the retry
loop and, on success, write the result through to the cache. Returns the
result, the number of attempts made, and the updated cache. -/
def fetch_batch (cache : Cache) (batch_keywords : List String) (now : Nat)
    (oracle : Nat → FetchOutcome) : Option DF × Nat × Cache :=
  let cache_key := get_cache_key batch_keywords "today 5-y" "DE"
  match get_cached_data cache cache_key now with
  | some cached => (some cached, 0, cache)
  | none =>
    match fetch_attempts oracle MAX_RETRIES 0 with
    | (some data, n) => (some data, n, save_to_cache cache cache_key now data)
    | (none, n) => (none, n, cache)

/-! ## Batching (app.py lines 62-66, google_trends.py lines 90-91)

Both files batch with the slice pattern
`[keywords[i:i+B] for i in range(0, len(keywords), B)]` (B = 5 in app.py,
B = 2 in google_trends.py). For B ≥ 1, slicing at offsets 0, B, 2B, … is the
chunking recursion below. -/

/-- Batching of a keyword list into consecutive chunks of at most `B`
keywords, as produced by `keywords[i:i+B] for i in range(0, len(keywords), B)`
for a step `B ≥ 1`. -/
def makeBatches (B : Nat) : List α → List (List α)
  | [] => []
  | x :: xs => (x :: xs.take (B - 1)) :: makeBatches B (xs.drop (B - 1))
  termination_by l => l.length
  decreasing_by simp [List.length_drop]; omega

/-! ## Merge (app.py lines 77-104)

`process_all_keywords` merges the successful per-batch tables: build the
union of all row indexes (pandas `Index.union`, which returns the ascending
duplicate-free union), reindex every table onto it (absent positions become
NaN), concatenate column-wise, drop duplicate column labels keeping the first
occurrence (`~columns.duplicated()`), and drop the `isPartial` column if
present. -/

/-- Insert a time point into an ascending duplicate-free list, keeping it
ascending and duplicate-free. -/
def insIdx (x : Int) : List Int → List Int
  | [] => [x]
  | y :: ys => if x < y then x :: y :: ys else if x = y then y :: ys else y :: insIdx x ys

/-- Model of pandas `Index.union`: the ascending, duplicate-free union of the
two indexes. -/
def indexUnion (a b : List Int) : List Int :=
  (a ++ b).foldr insIdx []

/-- Model of `df.reindex(common_index)`: the table re-aligned onto the new
index; positions absent from the original index get an explicit missing cell. -/
def reindex (df : DF) (newIndex : List Int) : DF :=
  ⟨newIndex, df.cols.map (fun c => (c.1, newIndex.map (lookupVal df.index c.2)))⟩

/-- Model of `combined_data.loc[:, ~combined_data.columns.duplicated()]`
(app.py line 95): keep only the first column with each label. `seen` is the
set of labels already kept, empty at the top-level call. -/
def dedupCols (seen : List String) : List (String × List (Option Int)) → List (String × List (Option Int))
  | [] => []
  | c :: rest => if c.1 ∈ seen then dedupCols seen rest else c :: dedupCols (c.1 :: seen) rest

/-- The merge step of `process_all_keywords` (app.py lines 77-104): `none`
when no batch produced data (line 77-78); otherwise fold `Index.union` over
the indexes starting from the first table's index (lines 84-86), reindex
every table onto the common index (line 89), concatenate column-wise
(line 92), remove duplicate column labels keeping the first (line 95), and
drop `isPartial` when present (lines 98-99). -/
def combineAll : List DF → Option DF
  | [] => none
  | first :: rest =>
    let common := rest.foldl (fun acc df => indexUnion acc df.index) first.index
    let aligned := (first :: rest).map (fun df => reindex df common)
    let concatCols := (aligned.map DF.cols).flatten
    some ⟨common, (dedupCols [] concatCols).filter (fun c => c.1 != "isPartial")⟩

/-- Embedding of `process_all_keywords` (app.py lines 59-104): batch the
keywords five at a time (lines 62-66), fetch each batch (line 70, the
per-batch fetch abstracted as `fetch`), keep only results that are neither
`None` nor empty (lines 71-72), return `None` when nothing was collected
(lines 77-78), and otherwise merge. -/
def process_all_keywords (keywords : List String) (fetch : List String → Option DF) : Option DF :=
  let all_data := (makeBatches 5 keywords).filterMap (fun b =>
    match fetch b with
    | some df => if df.isEmpty then none else some df
    | none => none)
  combineAll all_data

/-- The batches of a run that yielded a non-`None`, non-empty table — the
batches logged as successfully processed at app.py line 73. -/
def successBatches (keywords : List String) (fetch : List String → Option DF) : List (List String) :=
  (makeBatches 5 keywords).filter (fun b =>
    match fetch b with
    | some df => !df.isEmpty
    | none => false)

/-! ## Claims about the cache key (C7, C10) -/

/-- C7: for every two keyword lists that are permutations of each other and
every fixed window (timeframe, region), `get_cache_key` builds the same query
string — and hence the same MD5 key — so requests differing only in keyword
order address the same cache entry. -/
theorem get_cache_key_perm_invariant (k1 k2 : List String) (timeframe geo : String)
    (h : k1.Perm k2) :
    get_cache_key k1 timeframe geo = get_cache_key k2 timeframe geo := by
  unfold get_cache_key
  haveI : IsAntisymm String (fun a b => a ≤ b) := ⟨fun _ _ h1 h2 => le_antisymm h1 h2⟩
  haveI : IsTotal String (fun a b => a ≤ b) := ⟨fun a b => le_total a b⟩
  haveI : IsTrans String (fun a b => a ≤ b) := ⟨fun _ _ _ h1 h2 => le_trans h1 h2⟩
  have hsort : List.insertionSort (fun a b => a ≤ b) k1
      = List.insertionSort (fun a b => a ≤ b) k2 :=
    List.eq_of_perm_of_sorted
      (((List.perm_insertionSort _ k1).trans h).trans (List.perm_insertionSort _ k2).symm)
      (List.sorted_insertionSort _ k1) (List.sorted_insertionSort _ k2)
  rw [hsort]

/-- Witness for C7 at a concrete permutation pair. -/
theorem get_cache_key_perm_invariant_witness :
    (["b", "a"] : List String).Perm ["a", "b"] ∧
      get_cache_key ["b", "a"] "today 5-y" "DE" = get_cache_key ["a", "b"] "today 5-y" "DE" :=
  ⟨by decide, get_cache_key_perm_invariant ["b", "a"] ["a", "b"] "today 5-y" "DE" (by decide)⟩

/-- C10: the cache-key function is not injective in the keyword set: the
distinct keyword lists `["a-b"]` and `["a", "b"]` with the same window build
the same query string (the sorted keywords are joined with the separator
`"-"` before hashing), so they hash to the same MD5 key and silently share a
cache entry. -/
theorem get_cache_key_not_injective :
    get_cache_key ["a-b"] "today 5-y" "DE" = get_cache_key ["a", "b"] "today 5-y" "DE" ∧
      (["a-b"] : List String) ≠ ["a", "b"] := by
  constructor
  · unfold get_cache_key
    rw [show List.insertionSort (fun (a b : String) => a ≤ b) ["a-b"] = ["a-b"] from by
          simp [List.insertionSort, List.orderedInsert],
        show List.insertionSort (fun (a b : String) => a ≤ b) ["a", "b"] = ["a", "b"] from by
          simp [List.insertionSort, List.orderedInsert,
            le_of_lt (String.lt_iff_toList_lt.mpr (by decide : (['a'] : List Char) < ['b']))]]
    decide
  · decide

/-! ## Claim about cache TTL (C8) -/

/-- C8: a `get_cached_data` performed after a `save_to_cache` with the same
key returns the stored table when the elapsed time since the put is below
CACHE_DURATION, and returns `none` once the elapsed time reaches
CACHE_DURATION. Expiry is decided at read time only: `get_cached_data` takes
the cache immutably and cannot purge the entry. -/
theorem cache_get_after_put (cache : Cache) (key : String) (data : DF) (tput now : Nat)
    (_h : tput ≤ now) :
    (now - tput < CACHE_DURATION →
      get_cached_data (save_to_cache cache key tput data) key now = some data) ∧
    (CACHE_DURATION ≤ now - tput →
      get_cached_data (save_to_cache cache key tput data) key now = none) := by
  constructor
  · intro hc
    simp [get_cached_data, save_to_cache, List.find?_cons, hc]
  · intro hc
    simp [get_cached_data, save_to_cache, List.find?_cons, Nat.not_lt.mpr hc]

/-- Witness for C8: a put at time 0 read back at 100 seconds (inside the TTL)
and at two days (outside the TTL). -/
theorem cache_get_after_put_witness :
    ((0 : Nat) ≤ 100 ∧
      get_cached_data (save_to_cache [] "k" 0 ⟨[1], [("A", [some 1])]⟩) "k" 100
        = some ⟨[1], [("A", [some 1])]⟩) ∧
    ((0 : Nat) ≤ 2 * CACHE_DURATION ∧
      get_cached_data (save_to_cache [] "k" 0 ⟨[1], [("A", [some 1])]⟩) "k" (2 * CACHE_DURATION)
        = none) :=
  ⟨⟨by decide, (cache_get_after_put [] "k" ⟨[1], [("A", [some 1])]⟩ 0 100 (by decide)).1
      (by decide)⟩,
   ⟨by decide, (cache_get_after_put [] "k" ⟨[1], [("A", [some 1])]⟩ 0 (2 * CACHE_DURATION)
      (by decide)).2 (by decide)⟩⟩

/-! ## Claims about the retry loop (C1, C2)

The `except Exception` clause at google_trends.py line 81 catches every
exception alike; nothing in the loop distinguishes a malformed-request
(terminal) error from a transient one, and an empty table at line 74 falls
through to the next attempt exactly like an exception. -/

/-- C1 counterexample: with an empty cache, one keyword and an oracle whose
every attempt raises a terminal (malformed-request) error, `fetch_batch`
makes 3 attempts — not exactly one — before returning the failure `none`. -/
theorem fetch_batch_terminal_error_is_retried :
    (fetch_batch [] ["kw"] 0 (fun _ => FetchOutcome.err true)).1 = none ∧
    (fetch_batch [] ["kw"] 0 (fun _ => FetchOutcome.err true)).2.1 = 3 ∧
    (fetch_batch [] ["kw"] 0 (fun _ => FetchOutcome.err true)).2.1 ≠ 1 := by decide

/-- C1 (amended): terminal errors are retried exactly like retryable ones —
on a cache miss, when every attempt raises a terminal error, `fetch_batch`
returns the failure `none` after exactly MAX_RETRIES (3) attempts and leaves
the cache unchanged. -/
theorem fetch_batch_terminal_error_exhausts_retries (cache : Cache)
    (batch_keywords : List String) (now : Nat) (oracle : Nat → FetchOutcome)
    (hmiss : get_cached_data cache (get_cache_key batch_keywords "today 5-y" "DE") now = none)
    (herr : ∀ k < MAX_RETRIES, oracle k = FetchOutcome.err true) :
    fetch_batch cache batch_keywords now oracle = (none, MAX_RETRIES, cache) := by
  have h0 := herr 0 (by decide)
  have h1 := herr 1 (by decide)
  have h2 := herr 2 (by decide)
  simp only [fetch_batch, MAX_RETRIES, hmiss, fetch_attempts, h0, h1, h2]

/-- Witness for the amended C1 at a concrete cache, batch and oracle. -/
theorem fetch_batch_terminal_error_exhausts_retries_witness :
    get_cached_data [] (get_cache_key ["kw"] "today 5-y" "DE") 0 = none ∧
      fetch_batch [] ["kw"] 0 (fun _ => FetchOutcome.err true) = (none, MAX_RETRIES, []) :=
  ⟨by decide,
    fetch_batch_terminal_error_exhausts_retries [] ["kw"] 0 _ (by decide) (fun _ _ => rfl)⟩

/-- C2 counterexample: with an empty cache, one keyword and an oracle whose
every attempt completes without error but returns an explicitly empty table,
`fetch_batch` makes 3 attempts — the empty response is retried — and ends in
`none`, the same outcome as an exhausted failure, with no distinct Empty
classification. -/
theorem fetch_batch_empty_result_is_retried :
    (fetch_batch [] ["kw"] 0 (fun _ => FetchOutcome.ok ⟨[], []⟩)).1 = none ∧
    (fetch_batch [] ["kw"] 0 (fun _ => FetchOutcome.ok ⟨[], []⟩)).2.1 = 3 ∧
    (fetch_batch [] ["kw"] 0 (fun _ => FetchOutcome.ok ⟨[], []⟩)).2.1 ≠ 1 := by decide

/-- C2 (amended): an empty-but-valid table is retried like an error — on a
cache miss, when every attempt returns an empty table, `fetch_batch` makes
all MAX_RETRIES (3) attempts and returns `none`, indistinguishable from the
Failed outcome, leaving the cache unchanged. -/
theorem fetch_batch_empty_result_exhausts_retries (cache : Cache)
    (batch_keywords : List String) (now : Nat) (oracle : Nat → FetchOutcome)
    (hmiss : get_cached_data cache (get_cache_key batch_keywords "today 5-y" "DE") now = none)
    (hempty : ∀ k < MAX_RETRIES, ∃ df, oracle k = FetchOutcome.ok df ∧ df.isEmpty = true) :
    fetch_batch cache batch_keywords now oracle = (none, MAX_RETRIES, cache) := by
  obtain ⟨df0, h0, he0⟩ := hempty 0 (by decide)
  obtain ⟨df1, h1, he1⟩ := hempty 1 (by decide)
  obtain ⟨df2, h2, he2⟩ := hempty 2 (by decide)
  simp only [fetch_batch, MAX_RETRIES, hmiss, fetch_attempts, h0, h1, h2, he0, he1, he2,
    if_true]

/-- Witness for the amended C2 at a concrete cache, batch and oracle. -/
theorem fetch_batch_empty_result_exhausts_retries_witness :
    get_cached_data [] (get_cache_key ["kw"] "today 5-y" "DE") 0 = none ∧
      fetch_batch [] ["kw"] 0 (fun _ => FetchOutcome.ok ⟨[], []⟩) = (none, MAX_RETRIES, []) :=
  ⟨by decide,
    fetch_batch_empty_result_exhausts_retries [] ["kw"] 0 _ (by decide)
      (fun _ _ => ⟨⟨[], []⟩, rfl, rfl⟩)⟩

/-! ## Claim about batching (C4) -/

/-- Concatenating the batches in order recovers the original keyword list. -/
theorem makeBatches_flatten (B : Nat) (l : List α) : (makeBatches B l).flatten = l := by
  induction l using makeBatches.induct B with
  | case1 => simp [makeBatches]
  | case2 x xs ih => simp [makeBatches, ih]

/-- Every batch holds at most `B` keywords. -/
theorem makeBatches_sizes (B : Nat) (hB : 1 ≤ B) (l : List α) :
    ∀ c ∈ makeBatches B l, c.length ≤ B := by
  induction l using makeBatches.induct B with
  | case1 => simp [makeBatches]
  | case2 x xs ih =>
    intro c hc
    simp only [makeBatches, List.mem_cons] at hc
    rcases hc with rfl | hc
    · simp [List.length_take]
      omega
    · exact ih c hc

/-- The number of batches is the ceiling of N / B. -/
theorem makeBatches_length (B : Nat) (hB : 1 ≤ B) (l : List α) :
    (makeBatches B l).length = (l.length + B - 1) / B := by
  induction l using makeBatches.induct B with
  | case1 => simp [makeBatches, Nat.div_eq_of_lt (show B - 1 < B by omega)]
  | case2 x xs ih =>
    rw [makeBatches]
    simp only [List.length_cons, ih, List.length_drop]
    rcases Nat.lt_or_ge xs.length (B - 1) with hlt | hge
    · have h1 : xs.length - (B - 1) = 0 := by omega
      rw [h1]
      have h2 : (0 + B - 1) / B = 0 := Nat.div_eq_of_lt (by omega)
      have h3 : xs.length + 1 + B - 1 = xs.length + B := by omega
      rw [h2, h3, Nat.add_div_right _ (by omega : 0 < B), Nat.div_eq_of_lt (by omega)]
    · have h1 : xs.length - (B - 1) + B - 1 = xs.length := by omega
      have h3 : xs.length + 1 + B - 1 = xs.length + B := by omega
      rw [h1, h3, Nat.add_div_right _ (by omega : 0 < B)]

/-- C4: for every keyword list of length N and every cap B ≥ 1, the slice
batching produces exactly ceil(N/B) = (N + B - 1) / B batches, each of size
at most B, and the concatenation of the batches in order equals the original
list (so no keyword is omitted, duplicated, or reordered); an empty list
yields zero batches. -/
theorem makeBatches_spec (l : List String) (B : Nat) (hB : 1 ≤ B) :
    (makeBatches B l).length = (l.length + B - 1) / B ∧
    (∀ c ∈ makeBatches B l, c.length ≤ B) ∧
    (makeBatches B l).flatten = l ∧
    makeBatches B ([] : List String) = [] :=
  ⟨makeBatches_length B hB l, makeBatches_sizes B hB l, makeBatches_flatten B l,
    by simp [makeBatches]⟩

/-- Witness for C4 on the spec's end-to-end example: seven keywords with
cap 5 give two batches. -/
theorem makeBatches_spec_witness :
    1 ≤ 5 ∧
    ((makeBatches 5 ["a", "b", "c", "d", "e", "f", "g"]).length = (7 + 5 - 1) / 5 ∧
     (∀ c ∈ makeBatches 5 ["a", "b", "c", "d", "e", "f", "g"], c.length ≤ 5) ∧
     (makeBatches 5 ["a", "b", "c", "d", "e", "f", "g"]).flatten
        = ["a", "b", "c", "d", "e", "f", "g"] ∧
     makeBatches 5 ([] : List String) = []) :=
  ⟨by decide, makeBatches_spec ["a", "b", "c", "d", "e", "f", "g"] 5 (by decide)⟩

/-! ## Claims about the merge (C5, C9; C6 follows the orchestrator section,
whose membership lemmas it reuses) -/

/-- C5: merging T1 with index [d1,d2] and column "A" and T2 with index
[d2,d3] and column "B" yields the table whose index is the ascending,
duplicate-free union [d1,d2,d3] and whose columns are A and B, where the
cells (d1,"B") and (d3,"A") hold explicit missing values (`none`), not zero. -/
theorem combineAll_two_windows (d1 d2 d3 : Int) (v1 v2 w1 w2 : Int)
    (h12 : d1 < d2) (h23 : d2 < d3) :
    combineAll [⟨[d1, d2], [("A", [some v1, some v2])]⟩,
                ⟨[d2, d3], [("B", [some w1, some w2])]⟩]
      = some ⟨[d1, d2, d3],
              [("A", [some v1, some v2, none]), ("B", [none, some w1, some w2])]⟩ ∧
    DF.cell ⟨[d1, d2, d3],
             [("A", [some v1, some v2, none]), ("B", [none, some w1, some w2])]⟩ "B" d1
      = none ∧
    DF.cell ⟨[d1, d2, d3],
             [("A", [some v1, some v2, none]), ("B", [none, some w1, some w2])]⟩ "A" d3
      = none := by
  have h13 : d1 < d3 := lt_trans h12 h23
  refine ⟨?_, ?_, ?_⟩ <;>
    simp [combineAll, indexUnion, insIdx, reindex, lookupVal, dedupCols, DF.cell,
      h12, h23, h13, h12.ne, h23.ne, h13.ne, h12.ne', h23.ne', h13.ne']

/-- Witness for C5 at concrete dates 1 < 2 < 3 and values 10, 20, 30, 40. -/
theorem combineAll_two_windows_witness :
    (1 : Int) < 2 ∧ (2 : Int) < 3 ∧
    (combineAll [⟨[1, 2], [("A", [some 10, some 20])]⟩,
                 ⟨[2, 3], [("B", [some 30, some 40])]⟩]
       = some ⟨[1, 2, 3],
               [("A", [some 10, some 20, none]), ("B", [none, some 30, some 40])]⟩ ∧
     DF.cell ⟨[1, 2, 3],
              [("A", [some 10, some 20, none]), ("B", [none, some 30, some 40])]⟩ "B" 1
       = none ∧
     DF.cell ⟨[1, 2, 3],
              [("A", [some 10, some 20, none]), ("B", [none, some 30, some 40])]⟩ "A" 3
       = none) :=
  ⟨by decide, by decide, combineAll_two_windows 1 2 3 10 20 30 40 (by decide) (by decide)⟩

/-- C9: whatever successful per-batch tables are merged, the merge result
carries no service-internal bookkeeping column: the label "isPartial" is
never among the output's columns, because app.py lines 97-99 drop it before
the merged table is returned. -/
theorem combineAll_no_bookkeeping (dfs : List DF) (out : DF)
    (h : combineAll dfs = some out) : "isPartial" ∉ out.colNames := by
  match dfs with
  | [] => simp [combineAll] at h
  | first :: rest =>
    simp only [combineAll, Option.some.injEq] at h
    subst h
    intro hmem
    simp only [DF.colNames, List.mem_map] at hmem
    obtain ⟨c, hc, hfst⟩ := hmem
    rw [List.mem_filter] at hc
    have h2 := hc.2
    rw [hfst] at h2
    simp at h2

/-- Witness for C9 at a source table that carries an isPartial column. -/
theorem combineAll_no_bookkeeping_witness :
    combineAll [⟨[1], [("A", [some 1]), ("isPartial", [some 1])]⟩]
      = some ⟨[1], [("A", [some 1])]⟩ ∧
    "isPartial" ∉ (⟨[1], [("A", [some 1])]⟩ : DF).colNames :=
  ⟨by decide,
    combineAll_no_bookkeeping [⟨[1], [("A", [some 1]), ("isPartial", [some 1])]⟩]
      ⟨[1], [("A", [some 1])]⟩ (by decide)⟩

/-! ## Claim about the orchestrator run (C3) -/

/-- Emptiness of the merge characterises an empty input list. -/
theorem combineAll_eq_none (dfs : List DF) : combineAll dfs = none ↔ dfs = [] := by
  cases dfs <;> simp [combineAll]

/-- Reindexing keeps the column labels unchanged. -/
theorem map_fst_reindex (df : DF) (c : List Int) :
    (reindex df c).cols.map Prod.fst = df.cols.map Prod.fst := by
  simp [reindex, Function.comp]

/-- Membership in the labels surviving column de-duplication: a label
survives iff it occurs in the input and was not already kept. -/
theorem mem_dedupColsNames (a : String) (cols : List (String × List (Option Int))) :
    ∀ seen : List String,
      (a ∈ (dedupCols seen cols).map Prod.fst ↔ a ∈ cols.map Prod.fst ∧ a ∉ seen) := by
  induction cols with
  | nil => intro seen; simp [dedupCols]
  | cons c rest ih =>
    intro seen
    by_cases hcs : c.1 ∈ seen
    · rw [dedupCols, if_pos hcs, ih seen]
      simp only [List.map_cons, List.mem_cons]
      constructor
      · rintro ⟨hmem, hns⟩
        exact ⟨Or.inr hmem, hns⟩
      · rintro ⟨heq | hmem, hns⟩
        · exact absurd (heq ▸ hcs) hns
        · exact ⟨hmem, hns⟩
    · rw [dedupCols, if_neg hcs]
      simp only [List.map_cons, List.mem_cons, ih (c.1 :: seen), List.mem_cons]
      by_cases hac : a = c.1
      · simp [hac, hcs]
      · simp [hac]

/-- Membership in the labels surviving the bookkeeping-column drop. -/
theorem mem_map_fst_filterNe (a : String) (l : List (String × List (Option Int))) :
    a ∈ (l.filter (fun c => c.1 != "isPartial")).map Prod.fst ↔
      a ∈ l.map Prod.fst ∧ a ≠ "isPartial" := by
  simp only [List.mem_map, List.mem_filter, bne_iff_ne]
  constructor
  · rintro ⟨c, ⟨hc, hp⟩, rfl⟩
    exact ⟨⟨c, hc, rfl⟩, hp⟩
  · rintro ⟨⟨c, hc, rfl⟩, hp⟩
    exact ⟨c, ⟨hc, hp⟩, rfl⟩

/-- A label is a column of the merge result iff it is a column of some input
table and is not the bookkeeping label. -/
theorem mem_colNames_combineAll (dfs : List DF) (out : DF) (a : String)
    (h : combineAll dfs = some out) :
    a ∈ out.colNames ↔ (∃ df ∈ dfs, a ∈ df.colNames) ∧ a ≠ "isPartial" := by
  match dfs with
  | [] => simp [combineAll] at h
  | first :: rest =>
    simp only [combineAll, Option.some.injEq] at h
    subst h
    simp only [DF.colNames]
    rw [mem_map_fst_filterNe, mem_dedupColsNames]
    simp only [List.not_mem_nil, not_false_iff, and_true]
    rw [List.map_flatten, List.map_map, List.map_map]
    simp only [List.mem_flatten, List.mem_map, Function.comp_apply]
    constructor
    · rintro ⟨⟨l, ⟨df, hdf, rfl⟩, hal⟩, hne⟩
      rw [map_fst_reindex] at hal
      exact ⟨⟨df, hdf, List.mem_map.mp hal⟩, hne⟩
    · rintro ⟨⟨df, hdf, hadf⟩, hne⟩
      refine ⟨⟨_, ⟨df, hdf, rfl⟩, ?_⟩, hne⟩
      rw [map_fst_reindex]
      exact List.mem_map.mpr hadf

/-- Every keyword of a batch is a keyword of the original list. -/
theorem mem_of_mem_makeBatches (B : Nat) (l : List α) (b : List α) (x : α)
    (hb : b ∈ makeBatches B l) (hx : x ∈ b) : x ∈ l := by
  rw [← makeBatches_flatten B l]
  exact List.mem_flatten.mpr ⟨b, hb, hx⟩

/-- A batch result kept by the success filter of app.py lines 71-72 is a
table the fetch returned, and it is non-empty. -/
theorem filterMapResult (fetch : List String → Option DF) (b : List String) (df : DF)
    (h : (match fetch b with
          | some d => if d.isEmpty then none else some d
          | none => none) = some df) :
    fetch b = some df ∧ df.isEmpty = false := by
  rcases hfb : fetch b with _ | d
  · rw [hfb] at h
    simp at h
  · rw [hfb] at h
    by_cases he : d.isEmpty
    · simp [he] at h
    · simp [he] at h
      subst h
      refine ⟨rfl, by simpa using he⟩

/-- C3: assuming every table the fetch returns carries exactly its batch's
keywords plus the service's isPartial flag as columns, the run returns the
distinct NoData outcome (`none`) precisely when zero batches produce a
success, and any merged table it returns has as column set exactly the
successful batches' keywords — Empty and Failed batches are excluded from
the merge and do not abort the run. -/
theorem process_all_keywords_spec (keywords : List String) (fetch : List String → Option DF)
    (hcols : ∀ b ∈ makeBatches 5 keywords, ∀ df, fetch b = some df →
      df.colNames = b ++ ["isPartial"])
    (hip : "isPartial" ∉ keywords) :
    (process_all_keywords keywords fetch = none ↔ successBatches keywords fetch = []) ∧
    (∀ out, process_all_keywords keywords fetch = some out →
      ∀ a, (a ∈ out.colNames ↔ a ∈ (successBatches keywords fetch).flatten)) := by
  have hpoint : ∀ b, ((match fetch b with
      | some df => if df.isEmpty then none else some df
      | none => none) = none) ↔
      ((match fetch b with
        | some df => !df.isEmpty
        | none => false) = false) := by
    intro b
    rcases hfb : fetch b with _ | df
    · simp
    · by_cases he : df.isEmpty <;> simp [he]
  constructor
  · simp only [process_all_keywords, successBatches, combineAll_eq_none,
      List.filterMap_eq_nil_iff, List.filter_eq_nil_iff]
    refine forall₂_congr fun b hb => ?_
    exact (hpoint b).trans (by simp)
  · intro out hout a
    simp only [process_all_keywords] at hout
    rw [mem_colNames_combineAll _ _ _ hout, List.mem_flatten]
    constructor
    · rintro ⟨⟨df, hdf, hadf⟩, hne⟩
      rcases List.mem_filterMap.mp hdf with ⟨b, hb, hfb⟩
      obtain ⟨hfetch, hem⟩ := filterMapResult fetch b df hfb
      have hnames := hcols b hb df hfetch
      rw [hnames] at hadf
      rcases List.mem_append.mp hadf with hab | hab
      · refine ⟨b, ?_, hab⟩
        simp only [successBatches]
        exact List.mem_filter.mpr ⟨hb, by simp [hfetch, hem]⟩
      · exact absurd (List.mem_singleton.mp hab) hne
    · rintro ⟨b, hbs, hab⟩
      simp only [successBatches] at hbs
      obtain ⟨hb, hg⟩ := List.mem_filter.mp hbs
      rcases hfetch : fetch b with _ | df
      · rw [hfetch] at hg
        simp at hg
      · rw [hfetch] at hg
        simp at hg
        have hdf : df ∈ (makeBatches 5 keywords).filterMap (fun b =>
            match fetch b with
            | some df => if df.isEmpty then none else some df
            | none => none) :=
          List.mem_filterMap.mpr ⟨b, hb, by simp [hfetch, hg]⟩
        have hnames := hcols b hb df hfetch
        refine ⟨⟨df, hdf, ?_⟩, ?_⟩
        · rw [hnames]
          exact List.mem_append_left _ hab
        · intro heq
          exact hip (heq ▸ mem_of_mem_makeBatches 5 keywords b a hb hab)

/-- Witness for C3: two keywords in one batch whose fetch succeeds with the
columns a, b and isPartial. -/
theorem process_all_keywords_spec_witness :
    "isPartial" ∉ (["a", "b"] : List String) ∧
    ((process_all_keywords ["a", "b"]
        (fun b => if b = ["a", "b"]
          then some ⟨[1], [("a", [some 5]), ("b", [some 6]), ("isPartial", [some 1])]⟩
          else none) = none ↔
      successBatches ["a", "b"]
        (fun b => if b = ["a", "b"]
          then some ⟨[1], [("a", [some 5]), ("b", [some 6]), ("isPartial", [some 1])]⟩
          else none) = []) ∧
     (∀ out, process_all_keywords ["a", "b"]
        (fun b => if b = ["a", "b"]
          then some ⟨[1], [("a", [some 5]), ("b", [some 6]), ("isPartial", [some 1])]⟩
          else none) = some out →
      ∀ a, (a ∈ out.colNames ↔ a ∈ (successBatches ["a", "b"]
        (fun b => if b = ["a", "b"]
          then some ⟨[1], [("a", [some 5]), ("b", [some 6]), ("isPartial", [some 1])]⟩
          else none)).flatten))) :=
  ⟨by decide,
    process_all_keywords_spec ["a", "b"] _
      (by
        intro b hbmem df hdf
        have hbs : makeBatches 5 ["a", "b"] = [["a", "b"]] := by simp [makeBatches]
        rw [hbs, List.mem_singleton] at hbmem
        subst hbmem
        have hdf2 : df = ⟨[1], [("a", [some 5]), ("b", [some 6]), ("isPartial", [some 1])]⟩ := by
          simpa using hdf.symm
        subst hdf2
        rfl)
      (by decide)⟩

/-! ## Claim about duplicate columns (C6)

The general first-occurrence-wins rule: for any two per-batch tables sharing
a column label, the merged table keeps that label exactly once, carrying the
first table's cells. The lemmas below chase `find?` — which picks the first
column with a given label, exactly as cell access does — through the filter,
de-duplication, concatenation and reindexing stages of the merge. -/

/-- Membership in an insertion: the inserted point and the old members. -/
theorem mem_insIdx (x y : Int) (l : List Int) : y ∈ insIdx x l ↔ y = x ∨ y ∈ l := by
  induction l with
  | nil => simp [insIdx]
  | cons z zs ih =>
    rw [insIdx]
    split_ifs with h1 h2
    · simp [List.mem_cons]
    · subst h2
      simp only [List.mem_cons]
      tauto
    · simp only [List.mem_cons, ih]
      tauto

/-- Membership in a fold of insertions. -/
theorem mem_foldr_insIdx (y : Int) (l init : List Int) :
    y ∈ l.foldr insIdx init ↔ y ∈ l ∨ y ∈ init := by
  induction l with
  | nil => simp
  | cons x xs ih =>
    simp only [List.foldr_cons, mem_insIdx, ih, List.mem_cons]
    tauto

/-- The index union has exactly the members of the two indexes. -/
theorem mem_indexUnion (y : Int) (a b : List Int) :
    y ∈ indexUnion a b ↔ y ∈ a ∨ y ∈ b := by
  rw [indexUnion, mem_foldr_insIdx]
  simp [List.mem_append]

/-- Looking a point up in a column built by mapping over the same index
yields the mapped value at that point, or `none` off the index. -/
theorem lookupVal_map_self (idx : List Int) (f : Int → Option Int) (d : Int) :
    lookupVal idx (idx.map f) d = if d ∈ idx then f d else none := by
  induction idx with
  | nil => simp [lookupVal]
  | cons i is ih =>
    rw [List.map_cons, lookupVal]
    by_cases hdi : d = i
    · subst hdi
      simp
    · rw [if_neg hdi, ih]
      simp [List.mem_cons, hdi]

/-- A point outside the index has no cell. -/
theorem lookupVal_eq_none_of_not_mem (idx : List Int) (vals : List (Option Int)) (d : Int)
    (h : d ∉ idx) : lookupVal idx vals d = none := by
  induction idx generalizing vals with
  | nil => cases vals <;> rfl
  | cons i is ih =>
    cases vals with
    | nil => rfl
    | cons v vs =>
      simp only [List.mem_cons, not_or] at h
      rw [lookupVal, if_neg h.1]
      exact ih vs h.2

/-- Dropping the bookkeeping column does not change which column a
non-bookkeeping label finds first. -/
theorem find?_filterNe (n : String) (hnip : n ≠ "isPartial")
    (l : List (String × List (Option Int))) :
    (l.filter (fun c => c.1 != "isPartial")).find? (fun c => c.1 == n)
      = l.find? (fun c => c.1 == n) := by
  induction l with
  | nil => rfl
  | cons c rest ih =>
    rw [List.filter_cons]
    by_cases hcp : c.1 = "isPartial"
    · rw [if_neg (by simp [hcp]), ih,
        List.find?_cons_of_neg rest (by
          simp only [beq_iff_eq, hcp]
          exact fun h => hnip h.symm)]
    · rw [if_pos (by simp [hcp])]
      by_cases hcn : c.1 = n
      · rw [List.find?_cons_of_pos _ (by simp [hcn]), List.find?_cons_of_pos _ (by simp [hcn])]
      · rw [List.find?_cons_of_neg _ (by simp [hcn]), List.find?_cons_of_neg _ (by simp [hcn]),
          ih]

/-- De-duplication does not change which column a fresh label finds first. -/
theorem find?_dedupCols (n : String) (l : List (String × List (Option Int))) :
    ∀ seen, n ∉ seen →
      (dedupCols seen l).find? (fun c => c.1 == n) = l.find? (fun c => c.1 == n) := by
  induction l with
  | nil => intro seen _; rfl
  | cons c rest ih =>
    intro seen hns
    rw [dedupCols]
    by_cases hcs : c.1 ∈ seen
    · rw [if_pos hcs, ih seen hns,
        List.find?_cons_of_neg rest (by
          simp only [beq_iff_eq]
          exact fun h => hns (h ▸ hcs))]
    · rw [if_neg hcs]
      by_cases hcn : c.1 = n
      · rw [List.find?_cons_of_pos _ (by simp [hcn]), List.find?_cons_of_pos _ (by simp [hcn])]
      · rw [List.find?_cons_of_neg _ (by simp [hcn]), List.find?_cons_of_neg _ (by simp [hcn])]
        exact ih (c.1 :: seen) (by
          simp only [List.mem_cons, not_or]
          exact ⟨fun h => hcn h.symm, hns⟩)

/-- Finding a label commutes with a label-preserving transformation of the
columns (such as reindexing). -/
theorem find?_map_fst (n : String)
    (g : String × List (Option Int) → String × List (Option Int))
    (hg : ∀ c, (g c).1 = c.1) (l : List (String × List (Option Int))) :
    (l.map g).find? (fun c => c.1 == n) = (l.find? (fun c => c.1 == n)).map g := by
  induction l with
  | nil => rfl
  | cons c rest ih =>
    rw [List.map_cons]
    by_cases hcn : c.1 = n
    · rw [List.find?_cons_of_pos _ (by simp [hg, hcn]), List.find?_cons_of_pos _ (by simp [hcn])]
      rfl
    · rw [List.find?_cons_of_neg _ (by simp [hg, hcn]), List.find?_cons_of_neg _ (by simp [hcn]),
        ih]

/-- The labels surviving column de-duplication are pairwise distinct. -/
theorem nodup_dedupColsNames (l : List (String × List (Option Int))) :
    ∀ seen, ((dedupCols seen l).map Prod.fst).Nodup := by
  induction l with
  | nil => intro seen; simp [dedupCols]
  | cons c rest ih =>
    intro seen
    rw [dedupCols]
    by_cases hcs : c.1 ∈ seen
    · rw [if_pos hcs]
      exact ih seen
    · rw [if_neg hcs, List.map_cons, List.nodup_cons]
      refine ⟨fun hmem => ?_, ih (c.1 :: seen)⟩
      exact ((mem_dedupColsNames c.1 rest (c.1 :: seen)).mp hmem).2 (List.mem_cons_self c.1 seen)

/-- Every label the merge result carries, it carries exactly once. -/
theorem count_colNames_combineAll (dfs : List DF) (M : DF) (n : String)
    (hM : combineAll dfs = some M) (hmem : n ∈ M.colNames) :
    List.count n M.colNames = 1 := by
  match dfs with
  | [] => simp [combineAll] at hM
  | first :: rest =>
    simp only [combineAll, Option.some.injEq] at hM
    subst hM
    refine List.count_eq_one_of_mem ?_ hmem
    simp only [DF.colNames]
    exact List.Nodup.sublist ((List.filter_sublist _).map Prod.fst) (nodup_dedupColsNames _ [])

/-- In a two-table merge, a non-bookkeeping label carried by the first table
reads back the first table's cells at every time point. -/
theorem cell_combineAll_pair (T1 T2 : DF) (n : String) (M : DF)
    (hn1 : n ∈ T1.colNames) (hnip : n ≠ "isPartial")
    (hM : combineAll [T1, T2] = some M) (d : Int) :
    M.cell n d = T1.cell n d := by
  simp only [combineAll, Option.some.injEq, List.map_cons, List.map_nil, List.foldl_cons,
    List.foldl_nil, List.flatten, List.append_nil, reindex] at hM
  subst hM
  obtain ⟨c1, hc1⟩ : ∃ c1, T1.cols.find? (fun c => c.1 == n) = some c1 := by
    rcases hf : T1.cols.find? (fun c => c.1 == n) with _ | c1
    · exfalso
      rw [List.find?_eq_none] at hf
      rcases List.mem_map.mp hn1 with ⟨c, hc, hcn⟩
      exact hf c hc (by simp [hcn])
    · exact ⟨c1, hf⟩
  rw [DF.cell, DF.cell, hc1]
  rw [find?_filterNe n hnip, find?_dedupCols n _ [] (List.not_mem_nil n), List.find?_append]
  rw [find?_map_fst n
        (fun c => (c.1, List.map (lookupVal T1.index c.2) (indexUnion T1.index T2.index)))
        (fun c => rfl), hc1]
  by_cases hdc : d ∈ indexUnion T1.index T2.index
  · simp [lookupVal_map_self, hdc]
  · simp [lookupVal_map_self, hdc,
      lookupVal_eq_none_of_not_mem T1.index c1.2 d
        (fun hmem => hdc ((mem_indexUnion d T1.index T2.index).mpr (Or.inl hmem)))]

/-- C6: for every pair of source tables carrying the same column label over
the same index, the merged table contains that label exactly once and its
column holds the first-occurring table's values at every time point (first
occurrence wins, deterministically) — e.g. merging "A"=[1,2] with "A"=[9,9]
keeps "A"=[1,2]. -/
theorem combineAll_dup_col (T1 T2 : DF) (n : String) (M : DF)
    (_hidx : T2.index = T1.index)
    (hn1 : n ∈ T1.colNames) (_hn2 : n ∈ T2.colNames) (hnip : n ≠ "isPartial")
    (hM : combineAll [T1, T2] = some M) :
    List.count n M.colNames = 1 ∧ ∀ d, M.cell n d = T1.cell n d :=
  ⟨count_colNames_combineAll [T1, T2] M n hM
      ((mem_colNames_combineAll [T1, T2] M n hM).mpr ⟨⟨T1, by simp, hn1⟩, hnip⟩),
    cell_combineAll_pair T1 T2 n M hn1 hnip hM⟩

/-- Witness for C6: multi-column tables sharing the label "A" over the index
[1,2]; the merge keeps "A" once with the first table's values [1,2], not
[9,9]. -/
theorem combineAll_dup_col_witness :
    ((⟨[1, 2], [("A", [some 9, some 9]), ("C", [some 7, some 7])]⟩ : DF).index
        = (⟨[1, 2], [("A", [some 1, some 2]), ("B", [some 3, some 4])]⟩ : DF).index) ∧
    "A" ∈ (⟨[1, 2], [("A", [some 1, some 2]), ("B", [some 3, some 4])]⟩ : DF).colNames ∧
    "A" ∈ (⟨[1, 2], [("A", [some 9, some 9]), ("C", [some 7, some 7])]⟩ : DF).colNames ∧
    ("A" : String) ≠ "isPartial" ∧
    combineAll [⟨[1, 2], [("A", [some 1, some 2]), ("B", [some 3, some 4])]⟩,
                ⟨[1, 2], [("A", [some 9, some 9]), ("C", [some 7, some 7])]⟩]
      = some ⟨[1, 2], [("A", [some 1, some 2]), ("B", [some 3, some 4]),
                       ("C", [some 7, some 7])]⟩ ∧
    (List.count "A"
        (⟨[1, 2], [("A", [some 1, some 2]), ("B", [some 3, some 4]),
                   ("C", [some 7, some 7])]⟩ : DF).colNames = 1 ∧
      ∀ d, DF.cell ⟨[1, 2], [("A", [some 1, some 2]), ("B", [some 3, some 4]),
                   ("C", [some 7, some 7])]⟩ "A" d
        = DF.cell ⟨[1, 2], [("A", [some 1, some 2]), ("B", [some 3, some 4])]⟩ "A" d) :=
  ⟨by decide, by decide, by decide, by decide, by decide,
    combineAll_dup_col
      ⟨[1, 2], [("A", [some 1, some 2]), ("B", [some 3, some 4])]⟩
      ⟨[1, 2], [("A", [some 9, some 9]), ("C", [some 7, some 7])]⟩
      "A"
      ⟨[1, 2], [("A", [some 1, some 2]), ("B", [some 3, some 4]), ("C", [some 7, some 7])]⟩
      (by decide) (by decide) (by decide) (by decide) (by decide)⟩
